import Mathlib

/-!
Verification of the `WildcardMatch` sequence matcher
(`src/python/wildcard_match/wildcard_match.py`).

The matcher compares a target (a list of tokens, here `List String`) against
a pattern (a list of pieces, also strings).  A piece is a wildcard specifier
when it is one of the predefined symbols `*`, `?`, `+` or when the regular
expression `\s*\{\s*(?P<min>\d*)\s*,\s*(?P<max>\d*)\s*\}\s*` matches a prefix
of it; otherwise it is a literal compared for equality with target tokens.

Python exceptions are modelled with `Except MatchErr`:
`MatchErr.invalidRange` is the `ValueError` raised by `_get_variant_lengths`
and `MatchErr.keyError` is the `KeyError` raised by the dictionary lookup
`variant_rewrite_rules[piece]` on line 87 of the source.
-/

/-- Errors the Python code can raise during a `match` call. -/
inductive MatchErr where
  | invalidRange
  | keyError
  deriving DecidableEq, Repr

/-- The character class `\s` of the pattern-classifying regular expression
(ASCII whitespace, as relevant to the matcher). -/
def isPySpace (c : Char) : Bool :=
  c == ' ' || c == '\t' || c == '\n' || c == '\r' || c == '\x0b' || c == '\x0c'

/-- Greedy `\s*`: drop the maximal whitespace prefix. -/
def dropWS : List Char → List Char
  | [] => []
  | c :: rest => if isPySpace c then dropWS rest else c :: rest

/-- Greedy `\d*`: split off the maximal digit prefix. -/
def spanDigits : List Char → List Char × List Char
  | [] => ([], [])
  | c :: rest =>
    if c.isDigit then
      let s := spanDigits rest
      (c :: s.1, s.2)
    else ([], c :: rest)

/-- Decimal value of a digit string, as computed by Python `int`. -/
def digitsToNat (l : List Char) : Nat :=
  l.foldl (fun a c => a * 10 + (c.toNat - '0'.toNat)) 0

/-- Model of `re.match` of `\s*\{\s*(?P<min>\d*)\s*,\s*(?P<max>\d*)\s*\}\s*` against a
piece: `re.match` anchors at the start only, so the piece matches as a
wildcard specifier whenever a prefix of it has this shape.  Returns the two
captured digit groups.  Since `\s*` and `\d*` consume maximal runs and the
classes of the adjacent atoms are disjoint, the deterministic maximal-munch
parse below is equivalent to the regular-expression match. -/
def parseVariant (s : List Char) : Option (List Char × List Char) :=
  match dropWS s with
  | '{' :: s2 =>
    let (dmin, s4) := spanDigits (dropWS s2)
    match dropWS s4 with
    | ',' :: s6 =>
      let (dmax, s8) := spanDigits (dropWS s6)
      match dropWS s8 with
      | '}' :: _ => some (dmin, dmax)
      | _ => none
    | _ => none
  | _ => none

/-- Function `WildcardMatch._get_variant_lengths`: resolve the two captured groups of a
range specifier.  An empty minimum group defaults to 0, an empty maximum group
to unbounded (`none`); a finite maximum strictly below the minimum raises
`ValueError`. -/
def get_variant_lengths (dmin dmax : List Char) : Except MatchErr (Nat × Option Nat) :=
  let minimum := if dmin.isEmpty then 0 else digitsToNat dmin
  let maximum : Option Nat := if dmax.isEmpty then none else some (digitsToNat dmax)
  match maximum with
  | some m => if m < minimum then .error .invalidRange else .ok (minimum, maximum)
  | none => .ok (minimum, none)

/-- One step of the accumulation loop inside `WildcardMatch._sum_variant_lengths`:
`minimum += next_min`; and for the maxima, `if next_max is not None:
if maximum is None: maximum = next_max; elif maximum is not None: maximum += next_max`.
Note that a `none` (unbounded) accumulator is replaced by a later finite
maximum, and a `none` in `next_max` leaves a finite accumulator unchanged. -/
def sumStep (a b : Nat × Option Nat) : Nat × Option Nat :=
  (a.1 + b.1,
    match b.2 with
    | none => a.2
    | some v =>
      match a.2 with
      | none => some v
      | some m => some (m + v))

/-- Function `WildcardMatch._sum_variant_lengths`: result is `None` for no arguments,
otherwise the left fold of the loop body over the remaining arguments. -/
def sum_variant_lengths (args : List (Nat × Option Nat)) : Option (Nat × Option Nat) :=
  match args with
  | [] => none
  | a :: rest => some (rest.foldl sumStep a)

/-- The dictionary `variant_rewrite_rules = { "*": (0, None), "?": (0, 1), "+": (1, None) }`;
`none` models a failed key lookup. -/
def variant_rewrite_rules (piece : String) : Option (Nat × Option Nat) :=
  if piece = "*" then some (0, none)
  else if piece = "?" then some (0, some 1)
  else if piece = "+" then some (1, none)
  else none

/-- The inner collapse loop of `WildcardMatch.match` (lines 80-97): absorb the
maximal run of wildcard specifiers following the current one, summing the
bounds with `sumStep` (the source calls `_sum_variant_lengths` with exactly the
two pairs).  `pi` is `piece_index` and `rest` is `pattern[piece_index:]`, the
still-unread suffix of the pattern.  When the next piece is a predefined symbol
(its regular-expression match object is `None`), the source looks up
`variant_rewrite_rules[piece]` — the FIRST piece of the run, not `next_piece` —
which raises `KeyError` whenever that first piece is a range specifier. -/
def collapseRun (piece : String) (mn : Nat) (mx : Option Nat) (pi : Nat) :
    List String → Except MatchErr (Nat × Option Nat × Nat)
  | [] => .ok (mn, mx, pi)
  | nextPiece :: rest =>
    match parseVariant nextPiece.data with
    | some (dmin, dmax) =>
      match get_variant_lengths dmin dmax with
      | .error e => .error e
      | .ok nb =>
        let s := sumStep (mn, mx) nb
        collapseRun piece s.1 s.2 (pi + 1) rest
    | none =>
      if (variant_rewrite_rules nextPiece).isSome then
        match variant_rewrite_rules piece with
        | some nb =>
          let s := sumStep (mn, mx) nb
          collapseRun piece s.1 s.2 (pi + 1) rest
        | none => .error .keyError
      else .ok (mn, mx, pi)

/-- The `(minimum, maximum)` pairs of the later constituents of a wildcard
run, AS RESOLVED by the collapse loop of lines 85-91: walking the pattern
suffix that follows the run's first specifier, a range form contributes its
parsed bounds (raising the range error if invalid), while a predefined symbol
contributes the FIRST specifier's `variant_rewrite_rules` entry — line 87
looks up `piece`, not `next_piece` — raising `KeyError` when the first piece
is a range form; the list ends at the first non-wildcard piece. -/
def runConstituents (piece : String) : List String → Except MatchErr (List (Nat × Option Nat))
  | [] => .ok []
  | np :: rest =>
    match parseVariant np.data with
    | some (dmin, dmax) =>
      match get_variant_lengths dmin dmax with
      | .error e => .error e
      | .ok nb => (runConstituents piece rest).map fun l => nb :: l
    | none =>
      if (variant_rewrite_rules np).isSome then
        match variant_rewrite_rules piece with
        | some nb => (runConstituents piece rest).map fun l => nb :: l
        | none => .error .keyError
      else .ok []

/-- The forward scan of lines 114-117: starting at `target_index = ti` with the
remaining suffix `target[ti:]` (passed as `suffix`), advance one token at a
time until a token equals `nextPiece` or the target is exhausted; returns the
final `target_index` and the `next_piece_matched` flag. -/
def scanForPiece (suffix : List String) (nextPiece : String) (ti : Nat) : Nat × Bool :=
  match suffix with
  | [] => (ti, false)
  | tok :: rest => if tok == nextPiece then (ti + 1, true) else scanForPiece rest nextPiece (ti + 1)

/-- Lines 79-123 of `WildcardMatch.match`: handling of one wildcard specifier
whose resolved bounds are `(mn0, mx0)` and which sits just before index `pi`
(`piece_index` has already been advanced past it).  First the run is collapsed;
then either the run is the final pattern content (line 99: `piece_index ==
pattern_length`) and must be able to cover exactly the remaining target, or it
is followed by a non-wildcard piece.  In the latter case `target_index` first
advances by the run minimum; an unbounded run then scans forward for the first
occurrence of the following piece (consuming it on success), while a bounded
run advances by `maximum - minimum` more (Python integer arithmetic: the two
increments total `maximum`) and leaves the following piece to the next loop
iteration. -/
def wildcardStep (target pattern : List String) (piece : String) (mn0 : Nat)
    (mx0 : Option Nat) (ti pi : Nat) : Except MatchErr (Nat × Nat × Bool) :=
  match collapseRun piece mn0 mx0 pi (pattern.drop pi) with
  | .error e => .error e
  | .ok (mn, mx, pi') =>
    if pi' = pattern.length then
      let remaining := target.length - ti
      match mx with
      | none => if mn ≤ remaining then .ok (target.length, pi', true) else .ok (ti, pi', false)
      | some m =>
        if mn ≤ remaining ∧ m ≤ remaining then .ok (ti + m, pi', true) else .ok (ti, pi', false)
    else
      let nextPiece := pattern.getD pi' ""
      match mx with
      | none =>
        let s := scanForPiece (target.drop (ti + mn)) nextPiece (ti + mn)
        if s.2 then .ok (s.1, pi' + 1, true) else .ok (s.1, pi', false)
      | some m => .ok (ti + m, pi', true)

/-- One iteration of the main `while` loop of `WildcardMatch.match`
(lines 69-128), executed under the loop condition: classify the piece at
`piece_index` (regular-expression match first; on `None`, dictionary lookup;
otherwise literal comparison) and return the updated
`(target_index, piece_index, match_possible)`. -/
def loopBody (target pattern : List String) (ti pi : Nat) :
    Except MatchErr (Nat × Nat × Bool) :=
  let piece := pattern.getD pi ""
  match parseVariant piece.data with
  | some (dmin, dmax) =>
    match get_variant_lengths dmin dmax with
    | .error e => .error e
    | .ok b => wildcardStep target pattern piece b.1 b.2 ti (pi + 1)
  | none =>
    match variant_rewrite_rules piece with
    | some b => wildcardStep target pattern piece b.1 b.2 ti (pi + 1)
    | none =>
      if target.getD ti "" == piece then .ok (ti + 1, pi + 1, true)
      else .ok (ti, pi, false)

/-- The inner collapse loop only moves `piece_index` forward. -/
theorem collapseRun_le (piece : String) (rest : List String) :
    ∀ (mn : Nat) (mx : Option Nat) (pi mn' : Nat) (mx' : Option Nat) (pi' : Nat),
      collapseRun piece mn mx pi rest = .ok (mn', mx', pi') → pi ≤ pi' := by
  induction rest with
  | nil =>
    intro mn mx pi mn' mx' pi' h
    simp only [collapseRun] at h
    injection h with h
    rw [Prod.mk.injEq] at h
    rw [Prod.mk.injEq] at h
    omega
  | cons nextPiece rest ih =>
    intro mn mx pi mn' mx' pi' h
    simp only [collapseRun] at h
    split at h
    · split at h
      · cases h
      · exact Nat.le_trans (Nat.le_succ pi) (ih _ _ _ _ _ _ h)
    · split at h
      · split at h
        · exact Nat.le_trans (Nat.le_succ pi) (ih _ _ _ _ _ _ h)
        · cases h
      · injection h with h
        rw [Prod.mk.injEq] at h
        rw [Prod.mk.injEq] at h
        omega

/-- A wildcard step leaves `piece_index` at or beyond where it started. -/
theorem wildcardStep_le (target pattern : List String) (piece : String) (mn0 : Nat)
    (mx0 : Option Nat) (ti pi ti' pi' : Nat) (poss' : Bool)
    (h : wildcardStep target pattern piece mn0 mx0 ti pi = .ok (ti', pi', poss')) :
    pi ≤ pi' := by
  unfold wildcardStep at h
  dsimp only at h
  split at h
  · cases h
  · rename_i mn mx pj hc
    have hle : pi ≤ pj := collapseRun_le piece _ _ _ _ _ _ _ hc
    split at h
    · split at h
      · split at h <;> (injection h with h; rw [Prod.mk.injEq] at h; rw [Prod.mk.injEq] at h; omega)
      · split at h <;> (injection h with h; rw [Prod.mk.injEq] at h; rw [Prod.mk.injEq] at h; omega)
    · split at h
      · split at h <;> (injection h with h; rw [Prod.mk.injEq] at h; rw [Prod.mk.injEq] at h; omega)
      · injection h with h; rw [Prod.mk.injEq] at h; rw [Prod.mk.injEq] at h; omega

/-- Every successful iteration of the main loop either moves `piece_index`
strictly forward or clears the `match_possible` flag. -/
theorem loopBody_progress (target pattern : List String) (ti pi ti' pi' : Nat) (poss' : Bool)
    (h : loopBody target pattern ti pi = .ok (ti', pi', poss')) :
    pi < pi' ∨ (pi' = pi ∧ poss' = false) := by
  unfold loopBody at h
  dsimp only at h
  split at h
  · split at h
    · cases h
    · exact Or.inl (Nat.lt_of_succ_le (wildcardStep_le _ _ _ _ _ _ _ _ _ _ h))
  · split at h
    · exact Or.inl (Nat.lt_of_succ_le (wildcardStep_le _ _ _ _ _ _ _ _ _ _ h))
    · split at h
      · injection h with h; rw [Prod.mk.injEq] at h; rw [Prod.mk.injEq] at h; omega
      · injection h with h
        rw [Prod.mk.injEq] at h; rw [Prod.mk.injEq] at h
        exact Or.inr ⟨h.2.1.symm, h.2.2.symm⟩

/-- The main `while` loop of `WildcardMatch.match` (lines 69-128): loop while
`match_possible and piece_index < pattern_length and target_index < target_length`,
returning the final `(target_index, piece_index)` pair (or the raised error). -/
def matchLoop (target pattern : List String) (ti pi : Nat) (possible : Bool) :
    Except MatchErr (Nat × Nat) :=
  if hcond : possible = true ∧ pi < pattern.length ∧ ti < target.length then
    match hbody : loopBody target pattern ti pi with
    | .error e => .error e
    | .ok (ti', pi', poss') => matchLoop target pattern ti' pi' poss'
  else .ok (ti, pi)
termination_by (pattern.length + 1 - pi) + (if possible = true then 1 else 0)
decreasing_by
  obtain ⟨hp, hlt, -⟩ := hcond
  subst hp
  rcases loopBody_progress target pattern ti pi ti' pi' poss' hbody with h | ⟨h1, h2⟩
  · cases poss' <;> simp <;> omega
  · subst h1; subst h2; simp

/-- Function `WildcardMatch.match`: run the loop from both cursors at 0 with
`match_possible = True`; the result is
`target_index >= target_length and piece_index >= pattern_length`. -/
def wildcardMatch (target pattern : List String) : Except MatchErr Bool :=
  (matchLoop target pattern 0 0 true).map fun st =>
    decide (target.length ≤ st.1) && decide (pattern.length ≤ st.2)

/-- The main loop with an explicit iteration budget: each executed loop body
consumes one unit of `fuel`, and `none` is returned only if the loop would
need more iterations than the budget allows.  Exiting on a failed `while`
condition costs nothing. -/
def matchLoopFuel (fuel : Nat) (target pattern : List String) (ti pi : Nat)
    (possible : Bool) : Option (Except MatchErr (Nat × Nat)) :=
  if possible = true ∧ pi < pattern.length ∧ ti < target.length then
    match fuel with
    | 0 => none
    | fuel' + 1 =>
      match loopBody target pattern ti pi with
      | .error e => some (.error e)
      | .ok (ti', pi', poss') => matchLoopFuel fuel' target pattern ti' pi' poss'
  else some (.ok (ti, pi))

/-- Evaluation form of `wildcardMatch` computed through the fuel-bounded loop with the always
sufficient budget `pattern_length + 1`; used to evaluate concrete calls. -/
def wildcardMatchFuel (target pattern : List String) : Option (Except MatchErr Bool) :=
  (matchLoopFuel (pattern.length + 1) target pattern 0 0 true).map
    (Except.map fun st => decide (target.length ≤ st.1) && decide (pattern.length ≤ st.2))

/-- Loop exit: when the `while` condition fails the cursors are returned as is. -/
theorem matchLoop_halt (target pattern : List String) (ti pi : Nat) (possible : Bool)
    (h : ¬(possible = true ∧ pi < pattern.length ∧ ti < target.length)) :
    matchLoop target pattern ti pi possible = .ok (ti, pi) := by
  rw [matchLoop]
  rw [dif_neg h]

/-- Loop step: under the `while` condition, one iteration updates the state. -/
theorem matchLoop_step (target pattern : List String) (ti pi ti' pi' : Nat)
    (possible poss' : Bool)
    (hcond : possible = true ∧ pi < pattern.length ∧ ti < target.length)
    (hb : loopBody target pattern ti pi = .ok (ti', pi', poss')) :
    matchLoop target pattern ti pi possible = matchLoop target pattern ti' pi' poss' := by
  conv_lhs => rw [matchLoop]
  rw [dif_pos hcond]
  split
  · rename_i e heq; rw [hb] at heq; cases heq
  · rename_i a b c heq
    rw [hb] at heq
    injection heq with heq
    rw [Prod.mk.injEq] at heq; rw [Prod.mk.injEq] at heq
    rw [heq.1, heq.2.1, heq.2.2]

/-- Loop error: an exception inside the loop body propagates out of the loop. -/
theorem matchLoop_err (target pattern : List String) (ti pi : Nat) (possible : Bool)
    (e : MatchErr)
    (hcond : possible = true ∧ pi < pattern.length ∧ ti < target.length)
    (hb : loopBody target pattern ti pi = .error e) :
    matchLoop target pattern ti pi possible = .error e := by
  rw [matchLoop]
  rw [dif_pos hcond]
  split
  · rename_i e' heq; rw [hb] at heq; injection heq with heq; rw [heq]
  · rename_i a b c heq; rw [hb] at heq; cases heq

/-- The fuel-bounded loop also exits without consuming fuel when the `while`
condition fails. -/
theorem matchLoopFuel_halt (fuel : Nat) (target pattern : List String) (ti pi : Nat)
    (possible : Bool) (h : ¬(possible = true ∧ pi < pattern.length ∧ ti < target.length)) :
    matchLoopFuel fuel target pattern ti pi possible = some (.ok (ti, pi)) := by
  cases fuel with
  | zero => simp only [matchLoopFuel, if_neg h]
  | succ f => simp only [matchLoopFuel, if_neg h]

/-- A budget of `pattern_length - piece_index + 1` loop iterations always
suffices: every iteration advances `piece_index` or clears `match_possible`,
and a cleared flag ends the loop at the next condition check. -/
theorem matchLoopFuel_complete (target pattern : List String) :
    ∀ (fuel ti pi : Nat) (possible : Bool),
      (if possible = true then pattern.length - pi + 1 else 0) ≤ fuel →
      matchLoopFuel fuel target pattern ti pi possible
        = some (matchLoop target pattern ti pi possible) := by
  intro fuel
  induction fuel with
  | zero =>
    intro ti pi possible hμ
    cases possible with
    | false =>
      have hcond : ¬(false = true ∧ pi < pattern.length ∧ ti < target.length) := by
        intro hc; exact Bool.false_ne_true hc.1
      rw [matchLoop_halt target pattern ti pi false hcond]
      simp [matchLoopFuel]
    | true => simp at hμ
  | succ fuel ih =>
    intro ti pi possible hμ
    by_cases hcond : possible = true ∧ pi < pattern.length ∧ ti < target.length
    · cases hb : loopBody target pattern ti pi with
      | error e =>
        rw [matchLoop_err target pattern ti pi possible e hcond hb]
        rw [matchLoopFuel, if_pos hcond, hb]
      | ok st =>
        obtain ⟨ti', pi', poss'⟩ := st
        rw [matchLoop_step target pattern ti pi ti' pi' possible poss' hcond hb]
        rw [matchLoopFuel, if_pos hcond, hb]
        apply ih
        rcases loopBody_progress target pattern ti pi ti' pi' poss' hb with h | ⟨h1, h2⟩
        · rw [hcond.1] at hμ
          have hμ' : pattern.length - pi + 1 ≤ fuel + 1 := by simpa using hμ
          have h2 := hcond.2.1
          cases poss' <;> simp <;> omega
        · rw [h2]; simp
    · rw [matchLoop_halt target pattern ti pi possible hcond]
      rw [matchLoopFuel, if_neg hcond]

/-- The fuel-bounded evaluator always agrees with `wildcardMatch`. -/
theorem wildcardMatchFuel_eq (target pattern : List String) :
    wildcardMatchFuel target pattern = some (wildcardMatch target pattern) := by
  unfold wildcardMatchFuel wildcardMatch
  rw [matchLoopFuel_complete target pattern (pattern.length + 1) 0 0 true (by simp)]
  rfl

/-- Claim C9: with an empty target the main loop is never entered (its
condition requires `target_index < target_length`), so no pattern piece is
inspected and no range is validated; the call returns `True` exactly when the
pattern is also empty. -/
theorem C9_empty_target_matches_iff_empty_pattern (pattern : List String) :
    wildcardMatch [] pattern = .ok pattern.isEmpty := by
  unfold wildcardMatch
  rw [matchLoop_halt [] pattern 0 0 true (by simp)]
  cases pattern <;> simp [Except.map]

/-- Claim C8: the main loop terminates within a number of iterations bounded
by the combined lengths of target and pattern: running the loop with an
iteration budget of `target.length + pattern.length` already yields the
result of the unbounded loop. -/
theorem C8_loop_iterations_bounded_by_lengths (target pattern : List String) :
    matchLoopFuel (target.length + pattern.length) target pattern 0 0 true
      = some (matchLoop target pattern 0 0 true) := by
  cases target with
  | nil =>
    rw [matchLoop_halt [] pattern 0 0 true (by simp)]
    rw [matchLoopFuel_halt (List.length [] + pattern.length) [] pattern 0 0 true (by simp)]
  | cons t ts =>
    apply matchLoopFuel_complete
    have h1 : (if true = true then pattern.length - 0 + 1 else 0) = pattern.length + 1 := by simp
    rw [h1, List.length_cons]
    omega

/-- Claim C2 (counterexample): against the empty target, the single-piece
pattern `["*"]` yields `False`, not `True` as claimed — the main loop is never
entered, so the trailing zero-or-more run never gets to consume zero tokens
and `piece_index` stays short of the pattern length. -/
theorem C2_counterexample : wildcardMatch [] ["*"] = .ok false :=
  Option.some.inj ((wildcardMatchFuel_eq [] ["*"]).symm.trans rfl)

/-- Claim C2 (amended): for every NONEMPTY target, matching against the
single-piece pattern `["*"]` returns `True`. -/
theorem C2_star_matches_every_nonempty_target (t : String) (ts : List String) :
    wildcardMatch (t :: ts) ["*"] = .ok true := by
  unfold wildcardMatch
  rw [matchLoop_step (t :: ts) ["*"] 0 0 (t :: ts).length 1 true true ⟨rfl, by simp, by simp⟩ rfl]
  rw [matchLoop_halt (t :: ts) ["*"] (t :: ts).length 1 true (by simp)]
  simp [Except.map]

/-- Claim C3 (counterexample): the invalid range specifier `{3,1}` does NOT
raise for every target: with an empty target the loop never runs and the call
returns `False`, and a pattern whose invalid specifier sits behind a literal
that fails to match also returns `False` without validating the range. -/
theorem C3_counterexample :
    wildcardMatch [] ["{3,1}"] = .ok false ∧
      wildcardMatch ["x"] ["y", "{3,1}"] = .ok false :=
  ⟨Option.some.inj ((wildcardMatchFuel_eq [] ["{3,1}"]).symm.trans rfl),
   Option.some.inj ((wildcardMatchFuel_eq ["x"] ["y", "{3,1}"]).symm.trans rfl)⟩

/-- Claim C3 (amended): whenever the evaluation actually reaches the invalid
range specifier — in particular for every nonempty target matched against a
pattern that begins with `{3,1}`, whatever follows it — the configuration
error is raised and propagates to the caller instead of being swallowed into
a `False` result. -/
theorem C3_invalid_range_raises_when_reached (t : String) (ts ps : List String) :
    wildcardMatch (t :: ts) ("{3,1}" :: ps) = .error .invalidRange := by
  unfold wildcardMatch
  rw [matchLoop_err (t :: ts) ("{3,1}" :: ps) 0 0 true .invalidRange ⟨rfl, by simp, by simp⟩ rfl]
  rfl

/-- Claim C4: the claim that a well-formed pattern always yields a boolean is
violated by the code: when a range specifier is followed by a predefined
wildcard symbol, the collapse loop looks up the FIRST piece of the run in
`variant_rewrite_rules` (line 87 uses `piece` where `next_piece` is meant)
and raises `KeyError`.  Here the well-formed pattern `["{1,2}", "*"]` on the
target `["a"]` raises instead of returning a boolean. -/
theorem C4_range_then_symbol_raises_keyerror :
    wildcardMatch ["a"] ["{1,2}", "*"] = .error .keyError :=
  Option.some.inj ((wildcardMatchFuel_eq ["a"] ["{1,2}", "*"]).symm.trans rfl)

/-- Claim C6 (failing input): `match([], ["{0,}"])` returns `False` although
`len([]) = 0 ≥ 0` — the empty target never enters the loop, so the final
open-range piece is never consumed. -/
theorem C6_open_range_empty_target : wildcardMatch [] ["{0,}"] = .ok false :=
  Option.some.inj ((wildcardMatchFuel_eq [] ["{0,}"]).symm.trans rfl)

/-- Claim C7 (failing input): `match([], ["{0,0}"])` returns `False` although
`len([]) = 0 = 0` — the empty target never enters the loop. -/
theorem C7_exact_range_empty_target : wildcardMatch [] ["{0,0}"] = .ok false :=
  Option.some.inj ((wildcardMatchFuel_eq [] ["{0,0}"]).symm.trans rfl)

/-- Claim C1 (counterexample): the run sum is NOT "unbounded as soon as any
constituent is unbounded".  Summing `(0, unbounded)` — the `*` specifier —
with `(0, 0)` — the range `{0,0}` — yields the bounded `(0, 0)`: the finite
maximum overwrites the unbounded accumulator.  Consequently the run
`["*", "{0,0}"]` cannot consume the two remaining tokens of `["a", "b"]`
although the claimed constraint `(0, unbounded)` would match. -/
theorem C1_counterexample :
    sum_variant_lengths [(0, none), (0, some 0)] ≠ some (0, none) ∧
      wildcardMatch ["a", "b"] ["*", "{0,0}"] ≠ .ok true := by
  constructor
  · intro h
    rw [show sum_variant_lengths [(0, none), (0, some 0)] = some (0, some 0) from rfl] at h
    simp at h
  · intro h
    rw [show wildcardMatch ["a", "b"] ["*", "{0,0}"] = .ok false from
      Option.some.inj ((wildcardMatchFuel_eq ["a", "b"] ["*", "{0,0}"]).symm.trans rfl)] at h
    simp at h

/-- The summed minimum of one accumulation step. -/
theorem sumStep_fst (a b : Nat × Option Nat) : (sumStep a b).1 = a.1 + b.1 := rfl

/-- One accumulation step is unbounded exactly when both inputs are. -/
theorem sumStep_snd_isNone (a b : Nat × Option Nat) :
    (sumStep a b).2.isNone = (a.2.isNone && b.2.isNone) := by
  obtain ⟨a1, a2⟩ := a
  obtain ⟨b1, b2⟩ := b
  cases a2 <;> cases b2 <;> rfl

/-- The finite content of the maximum accumulates the finite maxima. -/
theorem sumStep_snd_getD (a b : Nat × Option Nat) :
    (sumStep a b).2.getD 0 = a.2.getD 0 + b.2.getD 0 := by
  obtain ⟨a1, a2⟩ := a
  obtain ⟨b1, b2⟩ := b
  cases a2 <;> cases b2 <;> simp [sumStep]

/-- Totals of `_sum_variant_lengths` over a nonempty argument list: the
minimums are summed, but the combined maximum is unbounded only when EVERY
argument is unbounded; otherwise it is the sum of the finite maxima alone — a
finite maximum appearing after an unbounded argument replaces the unbounded
accumulator instead of being absorbed by it. -/
theorem sum_variant_lengths_totals (a : Nat × Option Nat) (l : List (Nat × Option Nat)) :
    sum_variant_lengths (a :: l) =
      some (((a :: l).map Prod.fst).sum,
        if (a :: l).all (fun p => p.2.isNone) then none
        else some (((a :: l).map (fun p => p.2.getD 0)).sum)) := by
  induction l generalizing a with
  | nil =>
    obtain ⟨a1, a2⟩ := a
    cases a2 <;> simp [sum_variant_lengths]
  | cons b l ih =>
    have h1 : sum_variant_lengths (a :: b :: l) = sum_variant_lengths (sumStep a b :: l) := by
      simp [sum_variant_lengths, List.foldl]
    have hall : (sumStep a b :: l).all (fun p => p.2.isNone)
        = (a :: b :: l).all (fun p => p.2.isNone) := by
      simp [List.all_cons, sumStep_snd_isNone, Bool.and_assoc]
    have hmin : ((sumStep a b :: l).map Prod.fst).sum = ((a :: b :: l).map Prod.fst).sum := by
      simp [sumStep_fst, Nat.add_assoc]
    have hmax : ((sumStep a b :: l).map (fun p => p.2.getD 0)).sum
        = ((a :: b :: l).map (fun p => p.2.getD 0)).sum := by
      simp [sumStep_snd_getD, Nat.add_assoc]
    rw [h1, ih (sumStep a b), hall, hmin, hmax]

/-- Claim C1 (amended): the effective constraint of a wildcard run, as the
matcher computes it, is the iterated pairwise sum, starting from the first
specifier's own resolved bounds `(mn, mx)`, of the later constituents' bounds
AS RESOLVED by the collapse loop (`runConstituents`: a later range form
contributes its parsed bounds, a later predefined symbol contributes the
FIRST specifier's rewrite-rule entry).  Over these resolved pairs the
minimums are summed; the maximum is unbounded only when the first specifier's
maximum and every later resolved maximum are unbounded, and otherwise is the
sum of the finite maxima among them.  `piece_index` advances once per
absorbed constituent. -/
theorem C1_run_effective_constraint (piece : String) (rest : List String) :
    ∀ (mn : Nat) (mx : Option Nat) (pi : Nat),
      collapseRun piece mn mx pi rest =
        (runConstituents piece rest).map fun l =>
          (mn + (l.map Prod.fst).sum,
           if mx.isNone && l.all (fun p => p.2.isNone) then none
           else some (mx.getD 0 + (l.map (fun p => p.2.getD 0)).sum),
           pi + l.length) := by
  induction rest with
  | nil =>
    intro mn mx pi
    simp only [collapseRun, runConstituents, Except.map]
    cases mx <;> simp
  | cons np rest ih =>
    intro mn mx pi
    have key : ∀ nb : Nat × Option Nat,
        collapseRun piece (sumStep (mn, mx) nb).1 (sumStep (mn, mx) nb).2 (pi + 1) rest
          = ((runConstituents piece rest).map fun l => nb :: l).map fun l =>
              (mn + (l.map Prod.fst).sum,
               if mx.isNone && l.all (fun p => p.2.isNone) then none
               else some (mx.getD 0 + (l.map (fun p => p.2.getD 0)).sum),
               pi + l.length) := by
      intro nb
      rw [ih]
      cases hrc : runConstituents piece rest with
      | error e => rfl
      | ok l =>
        simp only [Except.map, List.map_cons, List.sum_cons, List.all_cons, List.length_cons]
        rw [sumStep_fst, sumStep_snd_isNone, sumStep_snd_getD, Bool.and_assoc]
        simp [Nat.add_assoc, Nat.add_comm, Nat.add_left_comm]
    simp only [collapseRun, runConstituents]
    cases hpv : parseVariant np.data with
    | some b =>
      obtain ⟨dmin, dmax⟩ := b
      dsimp only
      cases hgl : get_variant_lengths dmin dmax with
      | error e => rfl
      | ok nb =>
        dsimp only
        exact key nb
    | none =>
      dsimp only
      by_cases hrw : (variant_rewrite_rules np).isSome = true
      · rw [if_pos hrw, if_pos hrw]
        cases hrp : variant_rewrite_rules piece with
        | none => rfl
        | some nb =>
          dsimp only
          exact key nb
      · rw [if_neg hrw, if_neg hrw]
        cases mx <;> simp [Except.map]

/-- The forward scan finds exactly the first occurrence of the sought piece:
it stops one past the first index (counted absolutely from `i`) whose token
equals `nextPiece`, and otherwise runs off the end of the target with the
matched flag clear. -/
theorem scanForPiece_spec (nextPiece : String) (suffix : List String) :
    ∀ i : Nat, scanForPiece suffix nextPiece i =
      match List.findIdx? (fun tok => tok == nextPiece) suffix i with
      | some k => (k + 1, true)
      | none => (i + suffix.length, false) := by
  induction suffix with
  | nil => intro i; simp [scanForPiece, List.findIdx?_nil]
  | cons tok rest ih =>
    intro i
    simp only [scanForPiece, List.findIdx?_cons]
    by_cases h : (tok == nextPiece) = true
    · rw [if_pos h, if_pos h]
    · rw [if_neg h, if_neg h, ih (i + 1)]
      cases hf : List.findIdx? (fun tok => tok == nextPiece) rest (i + 1) with
      | some k => rfl
      | none =>
        have harith : i + 1 + rest.length = i + (rest.length + 1) := by omega
        simp [harith]

/-- Claim C5: when a collapsed wildcard run has an unbounded maximum and is
followed by a further piece (a literal), the matcher first consumes the run
minimum `mn`, then advances `target_index` one token at a time until the first
token equal to that literal.  If one is found at index `k`, that token is
consumed as part of the run (`target_index = k + 1`) and the literal piece is
consumed by the scan (`piece_index` skips past it); if the target is exhausted
without finding it, the match becomes impossible. -/
theorem C5_unbounded_run_scans_to_first_literal (target pattern : List String)
    (piece : String) (mn0 : Nat) (mx0 : Option Nat) (ti pi mn pi' : Nat)
    (hc : collapseRun piece mn0 mx0 pi (pattern.drop pi) = .ok (mn, none, pi'))
    (hlt : pi' < pattern.length) :
    wildcardStep target pattern piece mn0 mx0 ti pi =
      match List.findIdx? (fun tok => tok == pattern.getD pi' "")
          (target.drop (ti + mn)) (ti + mn) with
      | some k => .ok (k + 1, pi' + 1, true)
      | none => .ok (ti + mn + (target.drop (ti + mn)).length, pi', false) := by
  unfold wildcardStep
  rw [hc]
  dsimp only
  rw [if_neg (Nat.ne_of_lt hlt)]
  rw [scanForPiece_spec (pattern.getD pi' "") (target.drop (ti + mn)) (ti + mn)]
  cases hf : List.findIdx? (fun tok => tok == pattern.getD pi' "")
      (target.drop (ti + mn)) (ti + mn) with
  | some k => rfl
  | none => rfl

/-- Witness for C5 at a concrete input: target `["x", "a", "b"]` and pattern
`["*", "b"]`, where the run is `*` with bounds `(0, unbounded)`: the scan
finds `"b"` at index 2, consumes it, and skips the literal piece. -/
theorem C5_unbounded_run_scans_to_first_literal_witness :
    (collapseRun "*" 0 none 1 (["*", "b"].drop 1) = .ok (0, none, 1) ∧
        1 < ["*", "b"].length) ∧
      wildcardStep ["x", "a", "b"] ["*", "b"] "*" 0 none 0 1 = .ok (3, 2, true) :=
  ⟨⟨rfl, by decide⟩, by
    have h := C5_unbounded_run_scans_to_first_literal ["x", "a", "b"] ["*", "b"]
      "*" 0 none 0 1 0 1 rfl (by decide)
    simpa using h⟩

/-- A successfully resolved range with a finite maximum satisfies
`minimum ≤ maximum` (the validation of `_get_variant_lengths`). -/
theorem get_variant_lengths_le (dmin dmax : List Char) (m n : Nat)
    (hb : get_variant_lengths dmin dmax = .ok (m, some n)) : m ≤ n := by
  unfold get_variant_lengths at hb
  dsimp only at hb
  by_cases hbe : dmax.isEmpty = true
  · rw [if_pos hbe] at hb
    dsimp only at hb
    injection hb with hb
    rw [Prod.mk.injEq] at hb
    exact Option.noConfusion hb.2
  · rw [if_neg hbe] at hb
    dsimp only at hb
    by_cases hlt : digitsToNat dmax < (if dmin.isEmpty = true then 0 else digitsToNat dmin)
    · rw [if_pos hlt] at hb
      cases hb
    · rw [if_neg hlt] at hb
      injection hb with hb
      rw [Prod.mk.injEq] at hb
      obtain ⟨h1, h2⟩ := hb
      injection h2 with h2
      omega

/-- Evaluation of a whole-pattern range specifier with finite bounds: if the
single pattern piece parses as a range resolving to `(m, some n)`, a nonempty
target matches exactly when its length equals `n` (the loop requires
`maximum ≤ remaining` and then consumes `maximum` tokens, so any shorter
remainder — even one between the bounds — leaves the target unconsumed). -/
theorem boundedRange_whole_pattern_eval (t0 : String) (ts : List String) (pc : String)
    (dmin dmax : List Char) (m n : Nat)
    (hp : parseVariant pc.data = some (dmin, dmax))
    (hb : get_variant_lengths dmin dmax = .ok (m, some n)) :
    wildcardMatch (t0 :: ts) [pc] = .ok (decide ((t0 :: ts).length = n)) := by
  have hmn : m ≤ n := get_variant_lengths_le dmin dmax m n hb
  have hbody : loopBody (t0 :: ts) [pc] 0 0
      = wildcardStep (t0 :: ts) [pc] pc m (some n) 0 1 := by
    unfold loopBody
    simp only [List.getD_cons_zero]
    rw [hp]
    dsimp only
    rw [hb]
  have hws : wildcardStep (t0 :: ts) [pc] pc m (some n) 0 1
      = if m ≤ (t0 :: ts).length ∧ n ≤ (t0 :: ts).length
        then .ok (0 + n, 1, true) else .ok (0, 1, false) := rfl
  by_cases hlen : n ≤ (t0 :: ts).length
  · have hcnd : m ≤ (t0 :: ts).length ∧ n ≤ (t0 :: ts).length :=
      ⟨Nat.le_trans hmn hlen, hlen⟩
    unfold wildcardMatch
    rw [matchLoop_step (t0 :: ts) [pc] 0 0 (0 + n) 1 true true ⟨rfl, by simp, by simp⟩
      (by rw [hbody, hws, if_pos hcnd])]
    rw [matchLoop_halt (t0 :: ts) [pc] (0 + n) 1 true (by simp)]
    dsimp only [Except.map]
    have hfin : (decide ((t0 :: ts).length ≤ 0 + n) && decide ([pc].length ≤ 1))
        = decide ((t0 :: ts).length = n) := by
      rw [show decide ([pc].length ≤ 1) = true from rfl, Bool.and_true, decide_eq_decide]
      omega
    rw [hfin]
  · have hcnd : ¬(m ≤ (t0 :: ts).length ∧ n ≤ (t0 :: ts).length) := fun hh => hlen hh.2
    unfold wildcardMatch
    rw [matchLoop_step (t0 :: ts) [pc] 0 0 0 1 true false ⟨rfl, by simp, by simp⟩
      (by rw [hbody, hws, if_neg hcnd])]
    rw [matchLoop_halt (t0 :: ts) [pc] 0 1 false (by simp)]
    dsimp only [Except.map]
    have hfin : (decide ((t0 :: ts).length ≤ 0) && decide ([pc].length ≤ 1))
        = decide ((t0 :: ts).length = n) := by
      rw [show decide ((t0 :: ts).length ≤ 0) = false from by simp, Bool.false_and,
        eq_comm, decide_eq_false_iff_not]
      omega
    rw [hfin]

/-- Claim C10: a bounded range specifier `{m,n}` (m ≤ n, n finite, parsed from
the piece as `(m, some n)`) used as the entire pattern matches a nonempty
target iff the target length equals `n` exactly; lengths strictly between `m`
and `n` do not match, because the final-run check demands `maximum ≤ remaining`
and then consumes `maximum` tokens. -/
theorem C10_bounded_range_matches_only_full_maximum (t0 : String) (ts : List String)
    (pc : String) (dmin dmax : List Char) (m n : Nat)
    (hp : parseVariant pc.data = some (dmin, dmax))
    (hb : get_variant_lengths dmin dmax = .ok (m, some n)) :
    wildcardMatch (t0 :: ts) [pc] = .ok (decide ((t0 :: ts).length = n)) :=
  boundedRange_whole_pattern_eval t0 ts pc dmin dmax m n hp hb

/-- Witness for C10: the pattern `["{2,3}"]` against the three-token target
`["a", "b", "c"]` gives `True` (length 3 = maximum), by the theorem. -/
theorem C10_bounded_range_matches_only_full_maximum_witness :
    (parseVariant "{2,3}".data = some (['2'], ['3']) ∧
        get_variant_lengths ['2'] ['3'] = .ok (2, some 3)) ∧
      wildcardMatch ["a", "b", "c"] ["{2,3}"] = .ok (decide (["a", "b", "c"].length = 3)) :=
  ⟨⟨rfl, rfl⟩,
   C10_bounded_range_matches_only_full_maximum "a" ["b", "c"] "{2,3}" ['2'] ['3'] 2 3 rfl rfl⟩

/-- Claim C7 (amended): an exact-count range `{m,m}` (parsed from the piece as
`(m, some m)`) as the entire pattern matches a nonempty target iff the target
length equals `m`; the empty target is always rejected (see the
counterexample), since the loop is never entered. -/
theorem C7_exact_range_on_nonempty_target (t0 : String) (ts : List String)
    (pc : String) (dmin dmax : List Char) (m : Nat)
    (hp : parseVariant pc.data = some (dmin, dmax))
    (hb : get_variant_lengths dmin dmax = .ok (m, some m)) :
    wildcardMatch (t0 :: ts) [pc] = .ok (decide ((t0 :: ts).length = m)) :=
  boundedRange_whole_pattern_eval t0 ts pc dmin dmax m m hp hb

/-- Witness for C7: the pattern `["{2,2}"]` against the two-token target
`["a", "b"]` gives `True`, by the theorem. -/
theorem C7_exact_range_on_nonempty_target_witness :
    (parseVariant "{2,2}".data = some (['2'], ['2']) ∧
        get_variant_lengths ['2'] ['2'] = .ok (2, some 2)) ∧
      wildcardMatch ["a", "b"] ["{2,2}"] = .ok (decide (["a", "b"].length = 2)) :=
  ⟨⟨rfl, rfl⟩,
   C7_exact_range_on_nonempty_target "a" ["b"] "{2,2}" ['2'] ['2'] 2 rfl rfl⟩

/-- Claim C6 (amended): an open-upper-bound range `{m,}` (parsed from the
piece as `(m, none)`) as the entire pattern matches a nonempty target iff the
target length is at least `m`; the empty target is always rejected (see the
counterexample), since the loop is never entered. -/
theorem C6_open_range_on_nonempty_target (t0 : String) (ts : List String)
    (pc : String) (dmin dmax : List Char) (m : Nat)
    (hp : parseVariant pc.data = some (dmin, dmax))
    (hb : get_variant_lengths dmin dmax = .ok (m, none)) :
    wildcardMatch (t0 :: ts) [pc] = .ok (decide (m ≤ (t0 :: ts).length)) := by
  have hbody : loopBody (t0 :: ts) [pc] 0 0
      = wildcardStep (t0 :: ts) [pc] pc m none 0 1 := by
    unfold loopBody
    simp only [List.getD_cons_zero]
    rw [hp]
    dsimp only
    rw [hb]
  have hws : wildcardStep (t0 :: ts) [pc] pc m none 0 1
      = if m ≤ (t0 :: ts).length
        then .ok ((t0 :: ts).length, 1, true) else .ok (0, 1, false) := rfl
  by_cases hlen : m ≤ (t0 :: ts).length
  · unfold wildcardMatch
    rw [matchLoop_step (t0 :: ts) [pc] 0 0 (t0 :: ts).length 1 true true
      ⟨rfl, by simp, by simp⟩ (by rw [hbody, hws, if_pos hlen])]
    rw [matchLoop_halt (t0 :: ts) [pc] (t0 :: ts).length 1 true (by simp)]
    dsimp only [Except.map]
    have hfin : (decide ((t0 :: ts).length ≤ (t0 :: ts).length) && decide ([pc].length ≤ 1))
        = decide (m ≤ (t0 :: ts).length) := by
      rw [show decide ([pc].length ≤ 1) = true from rfl, Bool.and_true, decide_eq_decide]
      omega
    rw [hfin]
  · unfold wildcardMatch
    rw [matchLoop_step (t0 :: ts) [pc] 0 0 0 1 true false
      ⟨rfl, by simp, by simp⟩ (by rw [hbody, hws, if_neg hlen])]
    rw [matchLoop_halt (t0 :: ts) [pc] 0 1 false (by simp)]
    dsimp only [Except.map]
    have hfin : (decide ((t0 :: ts).length ≤ 0) && decide ([pc].length ≤ 1))
        = decide (m ≤ (t0 :: ts).length) := by
      rw [show decide ((t0 :: ts).length ≤ 0) = false from by simp, Bool.false_and,
        eq_comm, decide_eq_false_iff_not]
      omega
    rw [hfin]

/-- Witness for C6: the pattern `["{1,}"]` against the two-token target
`["a", "b"]` gives `True` (2 ≥ 1), by the theorem. -/
theorem C6_open_range_on_nonempty_target_witness :
    (parseVariant "{1,}".data = some (['1'], []) ∧
        get_variant_lengths ['1'] [] = .ok (1, none)) ∧
      wildcardMatch ["a", "b"] ["{1,}"] = .ok (decide (1 ≤ ["a", "b"].length)) :=
  ⟨⟨rfl, rfl⟩,
   C6_open_range_on_nonempty_target "a" ["b"] "{1,}" ['1'] [] 1 rfl rfl⟩
